import Mathlib

/-!
Verification development for the lil-cad polygon-authoring pipeline and
character controller (src/src/main.ts).

The embedding is shallow: grid vertices are integer pairs (the grid snapper
only ever produces `Math.round`ed lattice points), derived geometry
(centroids, half-heights, collision-volume vertices) lives in `ℚ`, and the
authoring state machine together with the scene/physics registries is a pure
step function over an explicit `Model` record driven by input events.
Library-owned vector math (Three.js normalization, the cannon-es physics
step, camera projection) enters as function parameters, matching the spec's
"consumed capabilities" boundary.
-/

/-- A grid vertex: an `(x, z)` pair on the ground plane (`type Vertex`). -/
structure Vertex where
  x : Int
  z : Int
deriving DecidableEq, Repr

instance : Inhabited Vertex := ⟨⟨0, 0⟩⟩

/-- The cross product computed inside `isConvexCCW`:
`(b.x - a.x) * (c.z - a.z) - (b.z - a.z) * (c.x - a.x)`. -/
def crossOf (a b c : Vertex) : Int :=
  (b.x - a.x) * (c.z - a.z) - (b.z - a.z) * (c.x - a.x)

/-- The cross product of the two edge vectors `b - a` and `c - b`, as the
spec phrases the convexity test. -/
def crossEdges (a b c : Vertex) : Int :=
  (b.x - a.x) * (c.z - b.z) - (b.z - a.z) * (c.x - b.x)

/-- One iteration of the `isConvexCCW` loop: the cross product at index `i`
is not negative. -/
def convexTermOk (verts : List Vertex) (i : ℕ) : Bool :=
  let a := verts.getD i default
  let b := verts.getD ((i + 1) % verts.length) default
  let c := verts.getD ((i + 2) % verts.length) default
  !(crossOf a b c < 0)

/-- `isConvexCCW` from main.ts: false for fewer than 3 vertices, otherwise
true exactly when no cyclic consecutive triple has a negative cross
product. -/
def isConvexCCW (verts : List Vertex) : Bool :=
  if verts.length < 3 then false
  else (List.range verts.length).all (convexTermOk verts)

/-- One summand of the shoelace loop in `ensureCCW`:
`verts[i].x * verts[j].z - verts[j].x * verts[i].z` with `j = (i+1) % n`. -/
def termD (verts : List Vertex) (i : ℕ) : Int :=
  let v := verts.getD i default
  let w := verts.getD ((i + 1) % verts.length) default
  v.x * w.z - w.x * v.z

/-- The shoelace accumulator `area` computed by `ensureCCW`. -/
def shoelace (verts : List Vertex) : Int :=
  ((List.range verts.length).map (termD verts)).sum

/-- `ensureCCW` from main.ts: keep the list when the shoelace sum is
strictly positive, otherwise return the reversed copy. -/
def ensureCCW (verts : List Vertex) : List Vertex :=
  if 0 < shoelace verts then verts else verts.reverse

/-- A 3D vector with exact rational coordinates (stands in for the float
vectors handed to cannon-es). -/
structure Vec3 where
  x : ℚ
  y : ℚ
  z : ℚ
deriving DecidableEq, Repr

instance : Inhabited Vec3 := ⟨⟨0, 0, 0⟩⟩

instance : Zero Vec3 := ⟨⟨0, 0, 0⟩⟩

instance : Add Vec3 := ⟨fun a b => ⟨a.x + b.x, a.y + b.y, a.z + b.z⟩⟩

instance : Sub Vec3 := ⟨fun a b => ⟨a.x - b.x, a.y - b.y, a.z - b.z⟩⟩

/-- The data `addConvexBody` hands to the physics world: the
`ConvexPolyhedron` vertex list and face index lists, and the body
position. -/
structure ConvexBodyData where
  vertices : List Vec3
  faces : List (List ℕ)
  position : Vec3
deriving DecidableEq, Repr

/-- `addConvexBody` from main.ts, as data: canonicalize the winding, reject
non-convex polygons with `none`, otherwise return the collision-volume
specification and body position that the code registers with the world. -/
def addConvexBody (verts : List Vertex) (height : ℚ) : Option ConvexBodyData :=
  let ccw := ensureCCW verts
  if isConvexCCW ccw then
    let n := ccw.length
    let cx : ℚ := (ccw.map fun v => (v.x : ℚ)).sum / n
    let cz : ℚ := (ccw.map fun v => (v.z : ℚ)).sum / n
    let cy : ℚ := height / 2
    let bottomVerts := ccw.map fun v => Vec3.mk ((v.x : ℚ) - cx) (-cy) ((v.z : ℚ) - cz)
    let topVerts := ccw.map fun v => Vec3.mk ((v.x : ℚ) - cx) cy ((v.z : ℚ) - cz)
    let bottomFace := List.range n
    let topFace := (List.range n).reverse.map fun i => n + i
    let sideFaces := (List.range n).map fun i => [(i + 1) % n, i, n + i, n + (i + 1) % n]
    some ⟨bottomVerts ++ topVerts, bottomFace :: topFace :: sideFaces, ⟨cx, cy, cz⟩⟩
  else none

/-- The `UxState` tagged union from main.ts. -/
inductive UxState where
  | idle : UxState
  | drawing (vertices : List Vertex) : UxState
  | polygon (vertices : List Vertex) (extrusion : Int) : UxState
deriving DecidableEq, Repr

/-- The vertex list carried by an authoring state (empty when idle). -/
def verticesOf : UxState → List Vertex
  | .idle => []
  | .drawing vs => vs
  | .polygon vs _ => vs

/-- The mutable globals the authoring pipeline touches: the authoring state,
the preview mesh (recorded by its construction parameters), the confirmed
solid meshes added to the scene, and the static bodies added to the physics
world. -/
structure Model where
  ux : UxState
  preview : Option (List Vertex × Int)
  sceneMeshes : List (List Vertex × Int)
  bodies : List ConvexBodyData
deriving DecidableEq, Repr

/-- `updatePreview` from main.ts as a value: after `clearPreview`, a new
preview mesh exists exactly when the extrusion is positive. -/
def updatePreview (vertices : List Vertex) (extrusion : Int) : Option (List Vertex × Int) :=
  if extrusion ≤ 0 then none else some (vertices, extrusion)

/-- `acceptExtrusion` from main.ts: clear the preview first; if
`addConvexBody` rejects, report failure with no further mutation; otherwise
register the physics body and the opaque solid mesh. -/
def acceptExtrusion (m : Model) (vertices : List Vertex) (extrusion : Int) : Model × Bool :=
  let m1 : Model := { m with preview := none }
  match addConvexBody vertices (extrusion : ℚ) with
  | none => (m1, false)
  | some body =>
      ({ m1 with
          bodies := m1.bodies ++ [body],
          sceneMeshes := m1.sceneMeshes ++ [(vertices, extrusion)] }, true)

/-- The input events consumed by the authoring state machine: a primary
click (carrying the current snapped vertex, if any), a secondary click, and
the two height-adjustment keys. -/
inductive Event where
  | click (highlighted : Option Vertex) : Event
  | cancel : Event
  | arrowUp : Event
  | arrowDown : Event
deriving DecidableEq, Repr

/-- One authoring-event step, combining the click handler, the contextmenu
handler and the ArrowUp/ArrowDown branches of the keydown handler. -/
def handleEvent (m : Model) (e : Event) : Model :=
  match e with
  | .click hv =>
    match m.ux with
    | .idle =>
      match hv with
      | some v => { m with ux := .drawing [v] }
      | none => m
    | .drawing vs =>
      match hv with
      | some v =>
        if 3 ≤ vs.length ∧ v = vs.headD default then
          { m with ux := .polygon vs 0 }
        else if v ≠ vs.getLastD default then
          { m with ux := .drawing (vs ++ [v]) }
        else m
      | none => m
    | .polygon vs h =>
      if 0 < h then
        let r := acceptExtrusion m vs h
        if r.2 then { r.1 with ux := .idle } else r.1
      else m
  | .cancel =>
    match m.ux with
    | .polygon _ _ => { m with preview := none, ux := .idle }
    | _ => m
  | .arrowUp =>
    match m.ux with
    | .polygon vs h =>
        { m with ux := .polygon vs (h + 1), preview := updatePreview vs (h + 1) }
    | _ => m
  | .arrowDown =>
    match m.ux with
    | .polygon vs h =>
        { m with ux := .polygon vs (max 0 (h - 1)),
                 preview := updatePreview vs (max 0 (h - 1)) }
    | _ => m

/-- The staircase rectangle built at startup for step `i`. -/
def stairVerts (i : ℕ) : List Vertex :=
  let z : Int := -2 - 2 * (i : Int)
  [⟨-1, z⟩, ⟨1, z⟩, ⟨1, z - 2⟩, ⟨-1, z - 2⟩]

/-- The program state after startup: idle, no preview, and the three-step
staircase registered through `acceptExtrusion`. -/
def initModel : Model :=
  (List.range 3).foldl
    (fun m i => (acceptExtrusion m (stairVerts i) ((i : Int) + 1)).1)
    ⟨.idle, none, [], []⟩

/-- Run a sequence of authoring events. -/
def run (m : Model) (es : List Event) : Model :=
  es.foldl handleEvent m

/-- A model is reachable when some event sequence leads to it from the
post-startup state. -/
def Reachable (m : Model) : Prop :=
  ∃ es : List Event, run initModel es = m

/-- Squared length of a vector (`lengthSq` on a Three.js vector). -/
def lengthSq (v : Vec3) : ℚ :=
  v.x * v.x + v.y * v.y + v.z * v.z

/-- The raw key-combination vector accumulated in `animate`: start from
zero, add `forward` for W, subtract it for S, add `right` for D, subtract
it for A. -/
def rawInputVel (kW kS kD kA : Bool) (forward right : Vec3) : Vec3 :=
  (((0 : Vec3) + (if kW then forward else 0)) - (if kS then forward else 0)
      + (if kD then right else 0)) - (if kA then right else 0)

/-- The desired input velocity: when the raw vector is nonzero it is
normalized and scaled to the move speed (library vector math, passed in as
`norm`); a zero raw vector is left untouched. -/
def desiredVel (norm : Vec3 → Vec3) (raw : Vec3) : Vec3 :=
  if 0 < lengthSq raw then norm raw else raw

/-- `airAccel` from `animate`. -/
def airAccel : ℚ := 1 / 20

/-- `airDecel` from `animate`. -/
def airDecel : ℚ := 1 / 20

/-- The velocity written to the player body just before `world.step`:
grounded frames overwrite the horizontal components with the input
velocity; airborne frames blend toward it. -/
def preStepVelocity (onGround : Bool) (iv v : Vec3) : Vec3 :=
  if onGround then ⟨iv.x, v.y, iv.z⟩
  else
    let airBlend := if 0 < lengthSq iv then airAccel else airDecel
    ⟨v.x + (iv.x - v.x) * airBlend, v.y, v.z + (iv.z - v.z) * airBlend⟩

/-- The velocity correction applied just after `world.step`: grounded
frames overwrite the horizontal components again. -/
def postStepVelocity (onGround : Bool) (iv v : Vec3) : Vec3 :=
  if onGround then ⟨iv.x, v.y, iv.z⟩ else v

/-- The player velocity at the end of one `animate` frame.  `physicsStep`
stands for the velocity change applied by `world.step` (gravity, contact
impulses); `norm` stands for `normalize().multiplyScalar(moveSpeed)`. -/
def frameVelocity (physicsStep : Vec3 → Vec3) (norm : Vec3 → Vec3)
    (kW kS kD kA : Bool) (forward right : Vec3) (onGround : Bool)
    (v : Vec3) : Vec3 :=
  let iv := desiredVel norm (rawInputVel kW kS kD kA forward right)
  postStepVelocity onGround iv (physicsStep (preStepVelocity onGround iv v))

/-- The vertex-highlight block of `animate`: the ground hit (if any) is
rounded to the lattice, then accepted only inside the distance radius and
the distance-scaled NDC cone.  `distToCamera` and `screenDist` stand for
the library computations `camera.position.distanceTo(vertexWorld)` and the
NDC offset norm of the projected vertex. -/
def snapCandidate (groundHit : Option (ℚ × ℚ))
    (distToCamera : Int → Int → ℚ) (screenDist : Int → Int → ℚ) :
    Option Vertex :=
  match groundHit with
  | none => none
  | some (hx, hz) =>
    let vx : Int := round hx
    let vz : Int := round hz
    if distToCamera vx vz < 8 then
      if screenDist vx vz < 15 / 100 / distToCamera vx vz then some ⟨vx, vz⟩
      else none
    else none

/-- A reachable non-convex hexagon (an L-shape). -/
def lVerts : List Vertex := [⟨0, 0⟩, ⟨2, 0⟩, ⟨2, 2⟩, ⟨1, 2⟩, ⟨1, 1⟩, ⟨0, 1⟩]

/-- Events that draw `lVerts`, close it, and raise the height to 1. -/
def esLShape : List Event :=
  [.click (some ⟨0, 0⟩), .click (some ⟨2, 0⟩), .click (some ⟨2, 2⟩),
   .click (some ⟨1, 2⟩), .click (some ⟨1, 1⟩), .click (some ⟨0, 1⟩),
   .click (some ⟨0, 0⟩), .arrowUp]

/-- A convex axis-aligned square. -/
def sqVerts : List Vertex := [⟨0, 0⟩, ⟨2, 0⟩, ⟨2, 2⟩, ⟨0, 2⟩]

/-- Events that draw `sqVerts`, close it, and raise the height to 1. -/
def esSquare : List Event :=
  [.click (some ⟨0, 0⟩), .click (some ⟨2, 0⟩), .click (some ⟨2, 2⟩),
   .click (some ⟨0, 2⟩), .click (some ⟨0, 0⟩), .arrowUp]

/-- Two clicks leaving the machine in a Drawing state. -/
def esDraw2 : List Event := [.click (some ⟨0, 0⟩), .click (some ⟨1, 0⟩)]

/-- Collinear vertices with shoelace sum zero. -/
def colVerts : List Vertex := [⟨0, 0⟩, ⟨1, 0⟩, ⟨2, 0⟩]

/-- A zero-area vertex list on which the canonicalize-then-test pipeline is
not reversal invariant. -/
def wZero : List Vertex := [⟨0, 0⟩, ⟨0, 2⟩, ⟨0, 1⟩, ⟨1, 0⟩, ⟨0, 1⟩]

/-- The reachable degenerate closed polygon of claim C10. -/
def lDegen : List Vertex := [⟨0, 0⟩, ⟨1, 0⟩, ⟨0, 0⟩]

/-- Clicks reaching the degenerate closed polygon `lDegen`. -/
def esDegen : List Event :=
  [.click (some ⟨0, 0⟩), .click (some ⟨1, 0⟩), .click (some ⟨0, 0⟩),
   .click (some ⟨0, 0⟩)]

/-- The collision body built for `sqVerts` at height 2. -/
def sqBody : ConvexBodyData :=
  (addConvexBody sqVerts 2).getD ⟨[], [], ⟨0, 0, 0⟩⟩

/-- The index reflection used to compare a list's shoelace terms with its
reversal's. -/
def reflectIdx (n i : ℕ) : ℕ :=
  if i + 1 = n then i else n - 2 - i

/-- Events reaching a PendingExtrusion state with positive height whose
confirm is rejected by the convexity test. -/
def esLShapeFail : List Event := esLShape ++ [.click none]

/-- The per-state invariant maintained by the authoring loop: idle and
drawing states carry no preview, drawing vertex lists are nonempty without
consecutive duplicates, and pending-extrusion heights are non-negative with
any live preview built from the current vertices at the current (positive)
height. -/
def uxInv : UxState → Option (List Vertex × Int) → Prop
  | .idle, p => p = none
  | .drawing vs, p => p = none ∧ vs ≠ [] ∧ List.Chain' (fun a b => a ≠ b) vs
  | .polygon vs h, p => 0 ≤ h ∧ ∀ q ∈ p, q = (vs, h) ∧ 0 < h

/-- The whole-model invariant. -/
def ModelInv (m : Model) : Prop := uxInv m.ux m.preview

/-- A list-level range sum equals the corresponding `Finset.range` sum. -/
theorem sum_range_list (f : ℕ → Int) (n : ℕ) :
    ((List.range n).map f).sum = ∑ i in Finset.range n, f i := by
  induction n with
  | zero => simp
  | succ n ih =>
      rw [List.range_succ, List.map_append, List.sum_append, Finset.sum_range_succ, ih]
      simp

/-- Adding `a` then `b` modulo `n` is the identity on indices below `n`
whenever `a + b` vanishes modulo `n`. -/
theorem mod_shift_cancel (n a b i : ℕ) (hi : i < n) (hab : (a + b) % n = 0) :
    ((i + a) % n + b) % n = i := by
  rw [Nat.mod_add_mod, Nat.add_assoc, ← Nat.add_mod_mod, hab, Nat.add_zero,
    Nat.mod_eq_of_lt hi]

/-- The forward and backward cyclic shifts cancel modulo `n`. -/
theorem shift_add_compl_mod (n k : ℕ) (hpos : 0 < n) :
    (k + (n - k % n)) % n = 0 := by
  have hB : k % n < n := Nat.mod_lt _ hpos
  rw [← Nat.mod_add_mod]
  have h : k % n + (n - k % n) = n := by omega
  rw [h, Nat.mod_self]

/-- The backward and forward cyclic shifts cancel modulo `n`. -/
theorem compl_add_shift_mod (n k : ℕ) (hpos : 0 < n) :
    ((n - k % n) + k) % n = 0 := by
  rw [Nat.add_comm]
  exact shift_add_compl_mod n k hpos

/-- Summing a function over a cyclically shifted index range gives the
original sum. -/
theorem sum_range_shift (f : ℕ → Int) (n k : ℕ) :
    ∑ i in Finset.range n, f ((i + k) % n) = ∑ i in Finset.range n, f i := by
  rcases Nat.eq_zero_or_pos n with rfl | hpos
  · simp
  refine Finset.sum_nbij' (fun i => (i + k) % n) (fun j => (j + (n - k % n)) % n)
    ?_ ?_ ?_ ?_ ?_
  · intro a ha
    exact Finset.mem_range.mpr (Nat.mod_lt _ hpos)
  · intro a ha
    exact Finset.mem_range.mpr (Nat.mod_lt _ hpos)
  · intro a ha
    exact mod_shift_cancel n k (n - k % n) a (Finset.mem_range.mp ha)
      (shift_add_compl_mod n k hpos)
  · intro a ha
    exact mod_shift_cancel n (n - k % n) k a (Finset.mem_range.mp ha)
      (compl_add_shift_mod n k hpos)
  · intro a ha
    rfl

/-- A bounded universal statement is invariant under cyclic index shift. -/
theorem forall_range_shift (P : ℕ → Prop) (n k : ℕ) :
    (∀ i < n, P ((i + k) % n)) ↔ (∀ i < n, P i) := by
  constructor
  · intro H j hj
    have hpos : 0 < n := by omega
    have h1 := H ((j + (n - k % n)) % n) (Nat.mod_lt _ hpos)
    rwa [mod_shift_cancel n (n - k % n) k j hj (compl_add_shift_mod n k hpos)] at h1
  · intro H i hi
    exact H _ (Nat.mod_lt _ (by omega))

/-- `reflectIdx` stays below `n`. -/
theorem reflectIdx_lt (n i : ℕ) (hi : i < n) : reflectIdx n i < n := by
  unfold reflectIdx
  split <;> omega

/-- `reflectIdx` is an involution on indices below `n`. -/
theorem reflectIdx_invol (n i : ℕ) (hi : i < n) : reflectIdx n (reflectIdx n i) = i := by
  unfold reflectIdx
  by_cases h : i + 1 = n
  · simp [h]
  · rw [if_neg h, if_neg (by omega)]
    omega

/-- Summing a function over the reflected index range gives the original
sum. -/
theorem sum_range_reflect_idx (f : ℕ → Int) (n : ℕ) :
    ∑ i in Finset.range n, f (reflectIdx n i) = ∑ i in Finset.range n, f i := by
  refine Finset.sum_nbij' (fun i => reflectIdx n i) (fun j => reflectIdx n j)
    ?_ ?_ ?_ ?_ ?_
  · intro a ha
    exact Finset.mem_range.mpr (reflectIdx_lt n a (Finset.mem_range.mp ha))
  · intro a ha
    exact Finset.mem_range.mpr (reflectIdx_lt n a (Finset.mem_range.mp ha))
  · intro a ha
    exact reflectIdx_invol n a (Finset.mem_range.mp ha)
  · intro a ha
    exact reflectIdx_invol n a (Finset.mem_range.mp ha)
  · intro a ha
    rfl

/-- In-bounds `getD` on a rotated list reads the original list at the
shifted index. -/
theorem getD_rotate (vs : List Vertex) (k i : ℕ) (hi : i < vs.length) :
    (vs.rotate k).getD i default = vs.getD ((i + k) % vs.length) default := by
  have h1 : i < (vs.rotate k).length := by rwa [List.length_rotate]
  rw [List.getD_eq_getElem _ _ h1, List.getD_eq_getElem _ _ (Nat.mod_lt _ (by omega)),
    List.getElem_rotate]

/-- In-bounds `getD` on a reversed list reads the original list at the
mirrored index. -/
theorem getD_reverse (vs : List Vertex) (i : ℕ) (hi : i < vs.length) :
    vs.reverse.getD i default = vs.getD (vs.length - 1 - i) default := by
  have h1 : i < vs.reverse.length := by rwa [List.length_reverse]
  rw [List.getD_eq_getElem _ _ h1, List.getD_eq_getElem _ _ (by omega),
    List.getElem_reverse]

/-- A shoelace term of a rotated list is a shoelace term of the original
list. -/
theorem termD_rotate (vs : List Vertex) (k i : ℕ) (hi : i < vs.length) :
    termD (vs.rotate k) i = termD vs ((i + k) % vs.length) := by
  have hn : 0 < vs.length := by omega
  unfold termD
  rw [List.length_rotate, getD_rotate vs k i hi,
    getD_rotate vs k ((i + 1) % vs.length) (Nat.mod_lt _ hn)]
  have h2 : ((i + 1) % vs.length + k) % vs.length
      = ((i + k) % vs.length + 1) % vs.length := by
    rw [Nat.mod_add_mod, Nat.mod_add_mod]
    congr 1
    omega
  rw [h2]

/-- A shoelace term of a reversed list is the negated shoelace term of the
original list at the reflected index. -/
theorem termD_reverse (vs : List Vertex) (i : ℕ) (hi : i < vs.length) :
    termD vs.reverse i = - termD vs (reflectIdx vs.length i) := by
  unfold termD reflectIdx
  rw [List.length_reverse]
  by_cases hcase : i + 1 = vs.length
  · have h0 : (i + 1) % vs.length = 0 := by rw [hcase, Nat.mod_self]
    rw [if_pos hcase, h0, getD_reverse vs i hi, getD_reverse vs 0 (by omega)]
    have e1 : vs.length - 1 - i = 0 := by omega
    have e2 : vs.length - 1 - 0 = i := by omega
    rw [e1, e2]
    dsimp only
    ring
  · have hlt : i + 1 < vs.length := by omega
    have h1 : (i + 1) % vs.length = i + 1 := Nat.mod_eq_of_lt hlt
    rw [if_neg hcase, h1, getD_reverse vs i hi, getD_reverse vs (i + 1) hlt]
    have e1 : vs.length - 1 - i = (vs.length - 2 - i) + 1 := by omega
    have e2 : vs.length - 1 - (i + 1) = vs.length - 2 - i := by omega
    have h2 : (vs.length - 2 - i + 1) % vs.length = vs.length - 2 - i + 1 :=
      Nat.mod_eq_of_lt (by omega)
    rw [e1, e2, h2]
    dsimp only
    ring

/-- The shoelace loop as a `Finset.range` sum. -/
theorem shoelace_eq_sum (vs : List Vertex) :
    shoelace vs = ∑ i in Finset.range vs.length, termD vs i :=
  sum_range_list (termD vs) vs.length

/-- Rotating the vertex list does not change the shoelace sum. -/
theorem shoelace_rotate (vs : List Vertex) (k : ℕ) :
    shoelace (vs.rotate k) = shoelace vs := by
  rw [shoelace_eq_sum, shoelace_eq_sum, List.length_rotate,
    ← sum_range_shift (termD vs) vs.length k]
  exact Finset.sum_congr rfl fun i hi => termD_rotate vs k i (Finset.mem_range.mp hi)

/-- Reversing the vertex list negates the shoelace sum. -/
theorem shoelace_reverse (vs : List Vertex) :
    shoelace vs.reverse = - shoelace vs := by
  rw [shoelace_eq_sum, shoelace_eq_sum, List.length_reverse]
  have h1 : ∑ i in Finset.range vs.length, termD vs.reverse i
      = ∑ i in Finset.range vs.length, - termD vs (reflectIdx vs.length i) :=
    Finset.sum_congr rfl fun i hi => termD_reverse vs i (Finset.mem_range.mp hi)
  rw [h1, Finset.sum_neg_distrib, sum_range_reflect_idx]

/-- Boolean characterization of the convexity loop. -/
theorem isConvexCCW_eq_true_iff (vs : List Vertex) :
    isConvexCCW vs = true ↔
      3 ≤ vs.length ∧ ∀ i < vs.length, convexTermOk vs i = true := by
  unfold isConvexCCW
  by_cases h : vs.length < 3
  · simp only [if_pos h]
    constructor
    · intro hfalse
      exact absurd hfalse (by simp)
    · intro ⟨h3, _⟩
      omega
  · simp only [if_neg h, List.all_eq_true, List.mem_range]
    constructor
    · intro hall
      exact ⟨by omega, hall⟩
    · intro ⟨_, hall⟩
      exact hall

/-- A convexity-loop term of a rotated list is the term of the original
list at the shifted index. -/
theorem convexTermOk_rotate (vs : List Vertex) (k i : ℕ) (hi : i < vs.length) :
    convexTermOk (vs.rotate k) i = convexTermOk vs ((i + k) % vs.length) := by
  have hn : 0 < vs.length := by omega
  unfold convexTermOk
  rw [List.length_rotate, getD_rotate vs k i hi,
    getD_rotate vs k ((i + 1) % vs.length) (Nat.mod_lt _ hn),
    getD_rotate vs k ((i + 2) % vs.length) (Nat.mod_lt _ hn)]
  have h1 : ((i + 1) % vs.length + k) % vs.length
      = ((i + k) % vs.length + 1) % vs.length := by
    rw [Nat.mod_add_mod, Nat.mod_add_mod]
    congr 1
    omega
  have h2 : ((i + 2) % vs.length + k) % vs.length
      = ((i + k) % vs.length + 2) % vs.length := by
    rw [Nat.mod_add_mod, Nat.mod_add_mod]
    congr 1
    omega
  rw [h1, h2]

/-- Two booleans agreeing as truth conditions are equal. -/
theorem bool_eq_of_iff {a b : Bool} (h : a = true ↔ b = true) : a = b := by
  cases a <;> cases b <;> simp_all

/-- The convexity loop verdict is invariant under cyclic rotation of the
vertex list. -/
theorem isConvexCCW_rotate (vs : List Vertex) (k : ℕ) :
    isConvexCCW (vs.rotate k) = isConvexCCW vs := by
  apply bool_eq_of_iff
  rw [isConvexCCW_eq_true_iff, isConvexCCW_eq_true_iff, List.length_rotate]
  have h1 : (∀ i < vs.length, convexTermOk (vs.rotate k) i = true)
      ↔ ∀ i < vs.length, convexTermOk vs ((i + k) % vs.length) = true := by
    constructor
    · intro H i hi
      rw [← convexTermOk_rotate vs k i hi]
      exact H i hi
    · intro H i hi
      rw [convexTermOk_rotate vs k i hi]
      exact H i hi
  rw [and_congr_right_iff]
  intro h3
  rw [h1, forall_range_shift (fun j => convexTermOk vs j = true) vs.length k]

/-- The canonicalize-then-test convexity verdict is invariant under cyclic
rotation. -/
theorem canonVerdict_rotate (vs : List Vertex) (k : ℕ) :
    isConvexCCW (ensureCCW (vs.rotate k)) = isConvexCCW (ensureCCW vs) := by
  unfold ensureCCW
  rw [shoelace_rotate]
  by_cases h : 0 < shoelace vs
  · rw [if_pos h, if_pos h, isConvexCCW_rotate]
  · rw [if_neg h, if_neg h, List.reverse_rotate, isConvexCCW_rotate]

/-- The canonicalize-then-test convexity verdict is invariant under
reversal whenever the shoelace sum is nonzero. -/
theorem canonVerdict_reverse (vs : List Vertex) (h : shoelace vs ≠ 0) :
    isConvexCCW (ensureCCW vs.reverse) = isConvexCCW (ensureCCW vs) := by
  unfold ensureCCW
  rw [shoelace_reverse]
  rcases lt_or_gt_of_ne h with hneg | hpos
  · rw [if_pos (by omega : (0 : Int) < - shoelace vs), if_neg (by omega)]
  · rw [if_neg (by omega : ¬ (0 : Int) < - shoelace vs), if_pos hpos,
      List.reverse_reverse]

/-- `getLastD` agrees with `getLast?` through `Option.getD`. -/
theorem getLastD_eq_getLast_opt (vs : List Vertex) (d : Vertex) :
    vs.getLastD d = (vs.getLast?).getD d := by
  cases vs with
  | nil => rfl
  | cons a t => simp [List.getLastD, List.getLast?_eq_getLast (a :: t) (by simp)]

/-- The authoring invariant holds after startup. -/
theorem modelInv_init : ModelInv initModel := by
  have h1 : initModel.ux = .idle := by decide
  have h2 : initModel.preview = none := by decide
  unfold ModelInv
  rw [h1, h2]
  rfl

/-- Every authoring event preserves the model invariant. -/
theorem modelInv_step (m : Model) (e : Event) (hm : ModelInv m) :
    ModelInv (handleEvent m e) := by
  obtain ⟨ux, p, sm, bs⟩ := m
  cases e with
  | click hv =>
    cases ux with
    | idle =>
      cases hv with
      | none => exact hm
      | some v =>
        have hp : p = none := hm
        exact ⟨hp, by simp, by simp⟩
    | drawing vs =>
      cases hv with
      | none => exact hm
      | some v =>
        obtain ⟨hp, hne, hchain⟩ := hm
        show uxInv (handleEvent ⟨.drawing vs, p, sm, bs⟩ (.click (some v))).ux
          (handleEvent ⟨.drawing vs, p, sm, bs⟩ (.click (some v))).preview
        simp only [handleEvent]
        by_cases h1 : 3 ≤ vs.length ∧ v = vs.headD default
        · rw [if_pos h1]
          refine ⟨by omega, ?_⟩
          intro q hq
          rw [hp] at hq
          cases hq
        · rw [if_neg h1]
          by_cases h2 : v ≠ vs.getLastD default
          · rw [if_pos h2]
            refine ⟨hp, by simp, ?_⟩
            rw [List.chain'_append]
            refine ⟨hchain, List.chain'_singleton v, ?_⟩
            intro x hx y hy
            have hy2 : v = y := by
              simpa using hy
            have hx2 : x = vs.getLastD default := by
              rw [getLastD_eq_getLast_opt, hx]
              rfl
            rw [← hy2]
            intro he
            exact h2 (he ▸ hx2)
          · rw [if_neg h2]
            exact ⟨hp, hne, hchain⟩
    | polygon vs h =>
      obtain ⟨hh, hprev⟩ := hm
      show uxInv (handleEvent ⟨.polygon vs h, p, sm, bs⟩ (.click hv)).ux
        (handleEvent ⟨.polygon vs h, p, sm, bs⟩ (.click hv)).preview
      simp only [handleEvent]
      by_cases hpos : 0 < h
      · rw [if_pos hpos]
        cases hb : addConvexBody vs (h : ℚ) with
        | none =>
          simp only [acceptExtrusion, hb]
          exact ⟨hh, by intro q hq; cases hq⟩
        | some body =>
          simp only [acceptExtrusion, hb]
          rfl
      · rw [if_neg hpos]
        exact ⟨hh, hprev⟩
  | cancel =>
    cases ux with
    | idle => exact hm
    | drawing vs => exact hm
    | polygon vs h => exact rfl
  | arrowUp =>
    cases ux with
    | idle => exact hm
    | drawing vs => exact hm
    | polygon vs h =>
      obtain ⟨hh, _⟩ := hm
      show uxInv (UxState.polygon vs (h + 1)) (updatePreview vs (h + 1))
      refine ⟨by omega, ?_⟩
      intro q hq
      unfold updatePreview at hq
      rw [if_neg (by omega)] at hq
      cases hq
      exact ⟨rfl, by omega⟩
  | arrowDown =>
    cases ux with
    | idle => exact hm
    | drawing vs => exact hm
    | polygon vs h =>
      obtain ⟨hh, _⟩ := hm
      show uxInv (UxState.polygon vs (max 0 (h - 1))) (updatePreview vs (max 0 (h - 1)))
      refine ⟨by omega, ?_⟩
      intro q hq
      unfold updatePreview at hq
      by_cases hz : max 0 (h - 1) ≤ 0
      · rw [if_pos hz] at hq
        cases hq
      · rw [if_neg hz] at hq
        cases hq
        exact ⟨rfl, by omega⟩

/-- Running any event sequence preserves the model invariant. -/
theorem modelInv_run (es : List Event) (m : Model) (hm : ModelInv m) :
    ModelInv (run m es) := by
  induction es generalizing m with
  | nil => exact hm
  | cons e es ih => exact ih (handleEvent m e) (modelInv_step m e hm)

/-- Every reachable model satisfies the invariant. -/
theorem reachable_modelInv (m : Model) (hr : Reachable m) : ModelInv m := by
  obtain ⟨es, rfl⟩ := hr
  exact modelInv_run es initModel modelInv_init

/-- The two convexity-test cross products agree. -/
theorem crossEdges_eq_crossOf (a b c : Vertex) : crossEdges a b c = crossOf a b c := by
  unfold crossEdges crossOf
  ring

/-- Propositional reading of one convexity-loop iteration. -/
theorem convexTermOk_iff (vs : List Vertex) (i : ℕ) :
    convexTermOk vs i = true ↔
      ¬ crossOf (vs.getD i default) (vs.getD ((i + 1) % vs.length) default)
          (vs.getD ((i + 2) % vs.length) default) < 0 := by
  unfold convexTermOk
  simp

/-- Canonicalization preserves the vertex count. -/
theorem ensureCCW_length (vs : List Vertex) : (ensureCCW vs).length = vs.length := by
  unfold ensureCCW
  split
  · rfl
  · exact List.length_reverse vs

/-- Canonicalization preserves any mapped sum over the vertices. -/
theorem ensureCCW_map_sum (vs : List Vertex) (f : Vertex → ℚ) :
    ((ensureCCW vs).map f).sum = (vs.map f).sum := by
  unfold ensureCCW
  split
  · rfl
  · rw [List.map_reverse, List.sum_reverse]

/-- Claim C1 counterexample: a reachable PendingExtrusion with height 1
over the non-convex `lVerts`, holding a live preview; the confirm click is
rejected yet discards the preview, contradicting the claim's "the preview
solid is not discarded". -/
theorem claimC1_counterexample :
    Reachable (run initModel esLShape) ∧
    (run initModel esLShape).ux = .polygon lVerts 1 ∧
    addConvexBody lVerts ((1 : Int) : ℚ) = none ∧
    (run initModel esLShape).preview = some (lVerts, 1) ∧
    (handleEvent (run initModel esLShape) (.click none)).preview = none :=
  ⟨⟨esLShape, rfl⟩, by decide, by decide, by decide, by decide⟩

/-- Claim C1 (amended): if confirm is issued in PendingExtrusion with
height > 0 and the polygon fails the convexity test, the authoring state
remains the same PendingExtrusion (same vertices, same height), no solid
mesh and no physics body are added — but the preview solid is discarded
(`acceptExtrusion` clears it before the convexity check). -/
theorem claimC1_amended (m : Model) (vs : List Vertex) (h : Int) (hv : Option Vertex)
    (hux : m.ux = .polygon vs h) (hpos : 0 < h)
    (hfail : addConvexBody vs (h : ℚ) = none) :
    (handleEvent m (.click hv)).ux = .polygon vs h ∧
    (handleEvent m (.click hv)).sceneMeshes = m.sceneMeshes ∧
    (handleEvent m (.click hv)).bodies = m.bodies ∧
    (handleEvent m (.click hv)).preview = none := by
  obtain ⟨ux, p, sm, bs⟩ := m
  dsimp only at hux
  subst hux
  simp only [handleEvent, acceptExtrusion, hfail, if_pos hpos]
  exact ⟨rfl, rfl, rfl, rfl⟩

/-- Claim C1 witness: the amended statement evaluated on the reachable
rejected L-shape confirm. -/
theorem claimC1_witness :
    (handleEvent (run initModel esLShape) (.click none)).ux = .polygon lVerts 1 ∧
    (handleEvent (run initModel esLShape) (.click none)).sceneMeshes
        = (run initModel esLShape).sceneMeshes ∧
    (handleEvent (run initModel esLShape) (.click none)).bodies
        = (run initModel esLShape).bodies ∧
    (handleEvent (run initModel esLShape) (.click none)).preview = none :=
  claimC1_amended (run initModel esLShape) lVerts 1 none (by decide) (by decide) (by decide)

/-- Claim C2 counterexample: after the rejected confirm the machine is in a
reachable PendingExtrusion with height 1 but no preview mesh, refuting
"the preview mesh is present if and only if the height is strictly greater
than 0". -/
theorem claimC2_counterexample :
    Reachable (run initModel esLShapeFail) ∧
    (run initModel esLShapeFail).ux = .polygon lVerts 1 ∧
    (run initModel esLShapeFail).preview = none :=
  ⟨⟨esLShapeFail, rfl⟩, by decide, by decide⟩

/-- Claim C2 (amended): in every reachable PendingExtrusion the height is a
non-negative integer, and whenever a preview mesh is present the height is
strictly positive (and the preview was built from the current vertices and
height); the converse direction fails after a rejected confirm. -/
theorem claimC2_amended (m : Model) (vs : List Vertex) (h : Int)
    (hr : Reachable m) (hux : m.ux = .polygon vs h) :
    0 ≤ h ∧ ∀ q ∈ m.preview, q = (vs, h) ∧ 0 < h := by
  have hinv := reachable_modelInv m hr
  unfold ModelInv at hinv
  rw [hux] at hinv
  exact hinv

/-- Claim C2 witness: the amended statement evaluated on the square with
height raised to 1. -/
theorem claimC2_witness :
    0 ≤ (1 : Int) ∧
      ∀ q ∈ (run initModel esSquare).preview, q = (sqVerts, 1) ∧ (0 : Int) < 1 :=
  claimC2_amended (run initModel esSquare) sqVerts 1 ⟨esSquare, rfl⟩ (by decide)

/-- Claim C3 counterexample: a collinear list with shoelace sum zero whose
order is nevertheless reversed by `ensureCCW`, refuting "when the signed
area is zero or positive the vertex order is left unchanged". -/
theorem claimC3_counterexample :
    shoelace colVerts = 0 ∧ ensureCCW colVerts = colVerts.reverse ∧
      ensureCCW colVerts ≠ colVerts :=
  ⟨by decide, by decide, by decide⟩

/-- Claim C3 (amended): `ensureCCW` reverses the vertex order exactly when
the shoelace signed area is negative or zero, and keeps it only when the
signed area is strictly positive. -/
theorem claimC3_amended (vs : List Vertex) :
    (shoelace vs < 0 → ensureCCW vs = vs.reverse) ∧
    (0 < shoelace vs → ensureCCW vs = vs) ∧
    (shoelace vs = 0 → ensureCCW vs = vs.reverse) := by
  unfold ensureCCW
  exact ⟨fun h => by rw [if_neg (by omega)], fun h => by rw [if_pos h],
    fun h => by rw [if_neg (by omega)]⟩

/-- Claim C3 witness: the amended statement evaluated on a clockwise
triangle, a counter-clockwise square, and the collinear list. -/
theorem claimC3_witness :
    ensureCCW [⟨0, 0⟩, ⟨0, 1⟩, ⟨1, 0⟩] = ([⟨0, 0⟩, ⟨0, 1⟩, ⟨1, 0⟩] : List Vertex).reverse ∧
    ensureCCW sqVerts = sqVerts ∧
    ensureCCW colVerts = colVerts.reverse :=
  ⟨(claimC3_amended [⟨0, 0⟩, ⟨0, 1⟩, ⟨1, 0⟩]).1 (by decide),
   (claimC3_amended sqVerts).2.1 (by decide),
   (claimC3_amended colVerts).2.2 (by decide)⟩

/-- Claim C4: for at least 3 vertices and positive height, the build
returns the convexity rejection exactly when some cyclic consecutive
triple of the canonicalized list has a strictly negative cross product of
its edge vectors. -/
theorem claimC4 (vs : List Vertex) (hq : ℚ) (hlen : 3 ≤ vs.length) (_hh : 0 < hq) :
    addConvexBody vs hq = none ↔
      ∃ i < vs.length,
        crossEdges ((ensureCCW vs).getD i default)
          ((ensureCCW vs).getD ((i + 1) % vs.length) default)
          ((ensureCCW vs).getD ((i + 2) % vs.length) default) < 0 := by
  have hlen2 := ensureCCW_length vs
  have hbody : addConvexBody vs hq = none ↔ isConvexCCW (ensureCCW vs) = false := by
    simp only [addConvexBody]
    cases hc : isConvexCCW (ensureCCW vs) <;> simp [hc]
  rw [hbody, ← Bool.not_eq_true, isConvexCCW_eq_true_iff, hlen2]
  constructor
  · intro H
    have H2 : ¬ ∀ i < vs.length, convexTermOk (ensureCCW vs) i = true :=
      fun hall => H ⟨hlen, hall⟩
    push_neg at H2
    obtain ⟨i, hi, hbad⟩ := H2
    refine ⟨i, hi, ?_⟩
    rw [crossEdges_eq_crossOf]
    by_contra hnot
    apply hbad
    rw [convexTermOk_iff, hlen2]
    exact hnot
  · rintro ⟨i, hi, hbad⟩ ⟨h3, hall⟩
    have hterm := hall i hi
    rw [convexTermOk_iff, hlen2] at hterm
    rw [crossEdges_eq_crossOf] at hbad
    exact hterm hbad

/-- Claim C4 witness: the equivalence evaluated on the non-convex L-shape
at height 1. -/
theorem claimC4_witness :
    addConvexBody lVerts 1 = none ↔
      ∃ i < lVerts.length,
        crossEdges ((ensureCCW lVerts).getD i default)
          ((ensureCCW lVerts).getD ((i + 1) % lVerts.length) default)
          ((ensureCCW lVerts).getD ((i + 2) % lVerts.length) default) < 0 :=
  claimC4 lVerts 1 (by decide) (by norm_num)

/-- The bottom face index list is recovered by unshifting and reversing
the top face index list. -/
theorem range_reverse_map_cancel (n : ℕ) :
    ((((List.range n).reverse.map fun i => n + i)).map fun j => j - n).reverse
      = List.range n := by
  rw [List.map_map]
  have h : ((fun j => j - n) ∘ fun i => n + i) = fun i => i := by
    funext i
    simp [Function.comp]
  rw [h]
  simp

/-- Claim C5: an accepted build produces exactly the 2n centered collision
vertices (bottom ring at -h/2 then top ring at +h/2, offset by the mean of
the polygon's vertex coordinates), a bottom face that is the reverse
winding of the top face, n quadrilateral side faces joining each canonical
edge to its vertical counterpart, and a body positioned at
(centroid.x, h/2, centroid.z). -/
theorem claimC5 (vs : List Vertex) (hq : ℚ) (b : ConvexBodyData)
    (hb : addConvexBody vs hq = some b) :
    b.vertices =
      ((ensureCCW vs).map fun v => Vec3.mk
          ((v.x : ℚ) - (vs.map fun u => (u.x : ℚ)).sum / vs.length)
          (-(hq / 2))
          ((v.z : ℚ) - (vs.map fun u => (u.z : ℚ)).sum / vs.length)) ++
      ((ensureCCW vs).map fun v => Vec3.mk
          ((v.x : ℚ) - (vs.map fun u => (u.x : ℚ)).sum / vs.length)
          (hq / 2)
          ((v.z : ℚ) - (vs.map fun u => (u.z : ℚ)).sum / vs.length)) ∧
    b.vertices.length = 2 * vs.length ∧
    b.faces =
      List.range vs.length ::
        ((List.range vs.length).reverse.map fun i => vs.length + i) ::
        ((List.range vs.length).map fun i =>
          [(i + 1) % vs.length, i, vs.length + i, vs.length + (i + 1) % vs.length]) ∧
    b.faces.getD 0 [] = ((b.faces.getD 1 []).map fun j => j - vs.length).reverse ∧
    b.faces.length = 2 + vs.length ∧
    b.position = ⟨(vs.map fun u => (u.x : ℚ)).sum / vs.length, hq / 2,
                  (vs.map fun u => (u.z : ℚ)).sum / vs.length⟩ := by
  have hlen2 := ensureCCW_length vs
  have hsx := ensureCCW_map_sum vs fun v => (v.x : ℚ)
  have hsz := ensureCCW_map_sum vs fun v => (v.z : ℚ)
  simp only [addConvexBody] at hb
  by_cases hc : isConvexCCW (ensureCCW vs) = true
  · rw [if_pos hc] at hb
    injection hb with hb3
    subst hb3
    refine ⟨?_, ?_, ?_, ?_, ?_, ?_⟩
    · dsimp only
      rw [hsx, hsz, hlen2]
    · dsimp only
      rw [List.length_append, List.length_map, List.length_map, hlen2]
      ring
    · dsimp only
      rw [hlen2]
    · dsimp only
      rw [hlen2]
      simp only [List.getD_cons_zero, List.getD_cons_succ]
      exact (range_reverse_map_cancel vs.length).symm
    · dsimp only
      simp only [List.length_cons, List.length_map, List.length_range, hlen2]
      ring
    · dsimp only
      rw [hsx, hsz, hlen2]
  · rw [if_neg hc] at hb
    cases hb

/-- Claim C5 witness: the build on the square at height 2 succeeds and its
output body sits at the centroid with half-height, with the bottom face the
reversed unshifted top face and the expected face lists. -/
theorem claimC5_witness :
    addConvexBody sqVerts 2 = some sqBody ∧
    sqBody.position = ⟨(sqVerts.map fun u => (u.x : ℚ)).sum / sqVerts.length, (2 : ℚ) / 2,
        (sqVerts.map fun u => (u.z : ℚ)).sum / sqVerts.length⟩ ∧
    sqBody.faces.getD 0 [] = ((sqBody.faces.getD 1 []).map fun j => j - sqVerts.length).reverse ∧
    sqBody.faces =
      [[0, 1, 2, 3], [7, 6, 5, 4],
       [1, 0, 4, 5], [2, 1, 5, 6], [3, 2, 6, 7], [0, 3, 7, 4]] := by
  have hb : addConvexBody sqVerts 2 = some sqBody := by
    have hsome : (addConvexBody sqVerts 2).isSome = true := by decide
    rcases ho : addConvexBody sqVerts 2 with _ | b
    · rw [ho] at hsome
      cases hsome
    · unfold sqBody
      rw [ho]
      rfl
  exact ⟨hb, (claimC5 sqVerts 2 sqBody hb).2.2.2.2.2,
    (claimC5 sqVerts 2 sqBody hb).2.2.2.1, by decide⟩

/-- Claim C6: in every reachable Drawing state no two consecutive vertices
are equal, and a confirm whose snapped vertex equals the most recently
placed vertex leaves the vertex list unchanged. -/
theorem claimC6 (m : Model) (vs : List Vertex) (v : Vertex)
    (hr : Reachable m) (hux : m.ux = .drawing vs) (hlast : vs.getLast? = some v) :
    List.Chain' (fun a b => a ≠ b) vs ∧
      verticesOf (handleEvent m (.click (some v))).ux = vs := by
  have hinv := reachable_modelInv m hr
  unfold ModelInv at hinv
  rw [hux] at hinv
  obtain ⟨hp, hne, hchain⟩ := hinv
  refine ⟨hchain, ?_⟩
  obtain ⟨ux, p, sm, bs⟩ := m
  dsimp only at hux
  subst hux
  have hv : vs.getLastD default = v := by
    rw [getLastD_eq_getLast_opt, hlast]
    rfl
  simp only [handleEvent]
  by_cases h1 : 3 ≤ vs.length ∧ v = vs.headD default
  · rw [if_pos h1]
    rfl
  · have hcond : ¬ (v ≠ vs.getLastD default) := by
      rw [hv]
      exact fun hne2 => hne2 rfl
    rw [if_neg h1, if_neg hcond]
    rfl

/-- Claim C6 witness: the statement evaluated on the two-vertex Drawing
state reached by `esDraw2`, clicking the last-placed vertex again. -/
theorem claimC6_witness :
    List.Chain' (fun a b => a ≠ b) [(⟨0, 0⟩ : Vertex), ⟨1, 0⟩] ∧
      verticesOf (handleEvent (run initModel esDraw2) (.click (some ⟨1, 0⟩))).ux
        = [(⟨0, 0⟩ : Vertex), ⟨1, 0⟩] :=
  claimC6 (run initModel esDraw2) [⟨0, 0⟩, ⟨1, 0⟩] ⟨1, 0⟩ ⟨esDraw2, rfl⟩
    (by decide) (by decide)

/-- Componentwise form of vector addition. -/
theorem Vec3.add_def (a b : Vec3) : a + b = ⟨a.x + b.x, a.y + b.y, a.z + b.z⟩ := rfl

/-- Componentwise form of vector subtraction. -/
theorem Vec3.sub_def (a b : Vec3) : a - b = ⟨a.x - b.x, a.y - b.y, a.z - b.z⟩ := rfl

/-- The zero vector, componentwise. -/
theorem Vec3.zero_def : (0 : Vec3) = ⟨0, 0, 0⟩ := rfl

/-- With no movement key held the accumulated raw input vector is zero. -/
theorem rawInputVel_none (forward right : Vec3) :
    rawInputVel false false false false forward right = 0 := by
  simp only [rawInputVel, Bool.false_eq_true, if_false]
  norm_num [Vec3.add_def, Vec3.sub_def, Vec3.zero_def]

/-- The zero raw vector is left untouched by normalization. -/
theorem desiredVel_zero (norm : Vec3 → Vec3) : desiredVel norm 0 = 0 := by
  have hz : lengthSq 0 = 0 := by
    show (0 : ℚ) * 0 + 0 * 0 + 0 * 0 = 0
    norm_num
  unfold desiredVel
  rw [hz, if_neg (by norm_num)]

/-- Claim C7: on grounded frames the horizontal velocity equals the desired
input velocity both immediately before and immediately after the physics
step, so with no movement keys held the end-of-frame horizontal velocity is
exactly (0, 0) regardless of what the step does. -/
theorem claimC7 (physicsStep norm : Vec3 → Vec3) (kW kS kD kA : Bool)
    (forward right v : Vec3) :
    (preStepVelocity true (desiredVel norm (rawInputVel kW kS kD kA forward right)) v).x
        = (desiredVel norm (rawInputVel kW kS kD kA forward right)).x ∧
    (preStepVelocity true (desiredVel norm (rawInputVel kW kS kD kA forward right)) v).z
        = (desiredVel norm (rawInputVel kW kS kD kA forward right)).z ∧
    (frameVelocity physicsStep norm kW kS kD kA forward right true v).x
        = (desiredVel norm (rawInputVel kW kS kD kA forward right)).x ∧
    (frameVelocity physicsStep norm kW kS kD kA forward right true v).z
        = (desiredVel norm (rawInputVel kW kS kD kA forward right)).z ∧
    (frameVelocity physicsStep norm false false false false forward right true v).x = 0 ∧
    (frameVelocity physicsStep norm false false false false forward right true v).z = 0 := by
  have hframe : frameVelocity physicsStep norm false false false false forward right true v
      = postStepVelocity true 0 (physicsStep (preStepVelocity true 0 v)) := by
    unfold frameVelocity
    rw [rawInputVel_none, desiredVel_zero]
  refine ⟨rfl, rfl, rfl, rfl, ?_, ?_⟩
  · rw [hframe]
    rfl
  · rw [hframe]
    rfl

/-- Claim C8 counterexample: on the zero-area list `wZero` the
canonicalize-then-test verdict differs between the list and its reversal,
refuting unrestricted reversal invariance. -/
theorem claimC8_counterexample :
    isConvexCCW (ensureCCW wZero.reverse) = true ∧
    isConvexCCW (ensureCCW wZero) = false ∧
    isConvexCCW (ensureCCW wZero.reverse) ≠ isConvexCCW (ensureCCW wZero) :=
  ⟨by decide, by decide, by decide⟩

/-- Claim C8 (amended): the canonicalize-then-test convexity verdict is
invariant under every cyclic rotation of the vertex list, and invariant
under reversal for every list whose shoelace signed area is nonzero; on
zero-area lists reversal can flip the verdict. -/
theorem claimC8_amended :
    (∀ (vs : List Vertex) (k : ℕ),
        isConvexCCW (ensureCCW (vs.rotate k)) = isConvexCCW (ensureCCW vs)) ∧
    (∀ vs : List Vertex, shoelace vs ≠ 0 →
        isConvexCCW (ensureCCW vs.reverse) = isConvexCCW (ensureCCW vs)) :=
  ⟨canonVerdict_rotate, canonVerdict_reverse⟩

/-- Claim C8 witness: the amended statement evaluated on a rotation of the
L-shape and on the reversal of the square. -/
theorem claimC8_witness :
    isConvexCCW (ensureCCW (lVerts.rotate 2)) = isConvexCCW (ensureCCW lVerts) ∧
    isConvexCCW (ensureCCW sqVerts.reverse) = isConvexCCW (ensureCCW sqVerts) :=
  ⟨claimC8_amended.1 lVerts 2, claimC8_amended.2 sqVerts (by decide)⟩

/-- Claim C9: with no ground hit the snapper yields no candidate; with a
hit, the candidate is the hit rounded on x and z, accepted exactly when
its camera distance is under 8 and its NDC offset from screen center is
under 0.15 divided by that distance. -/
theorem claimC9 (distToCamera screenDist : Int → Int → ℚ) (hx hz : ℚ) (v : Vertex) :
    snapCandidate none distToCamera screenDist = none ∧
    (snapCandidate (some (hx, hz)) distToCamera screenDist = some v ↔
      v = ⟨round hx, round hz⟩ ∧
      distToCamera (round hx) (round hz) < 8 ∧
      screenDist (round hx) (round hz) < 15 / 100 / distToCamera (round hx) (round hz)) := by
  refine ⟨rfl, ?_⟩
  simp only [snapCandidate]
  by_cases h1 : distToCamera (round hx) (round hz) < 8
  · rw [if_pos h1]
    by_cases h2 : screenDist (round hx) (round hz)
        < 15 / 100 / distToCamera (round hx) (round hz)
    · rw [if_pos h2]
      constructor
      · intro he
        injection he with he2
        exact ⟨he2.symm, h1, h2⟩
      · intro ⟨he, _, _⟩
        rw [he]
    · rw [if_neg h2]
      constructor
      · intro he
        cases he
      · intro ⟨_, _, hc⟩
        exact absurd hc h2
  · rw [if_neg h1]
    constructor
    · intro he
      cases he
    · intro ⟨_, hc, _⟩
      exact absurd hc h1

/-- Claim C10: the convexity test accepts any list of length at least 3
whose cyclic triples all have zero cross product; the degenerate closed
polygon `lDegen` is reachable by the stated click sequence, the build
succeeds on it for every positive height, and confirming it registers one
more solid mesh and physics body instead of rejecting. -/
theorem claimC10 :
    (∀ vs : List Vertex, 3 ≤ vs.length →
        (∀ i < vs.length,
          crossOf (vs.getD i default) (vs.getD ((i + 1) % vs.length) default)
            (vs.getD ((i + 2) % vs.length) default) = 0) →
        isConvexCCW vs = true) ∧
    (run initModel esDegen).ux = .polygon lDegen 0 ∧
    (∀ hq : ℚ, 0 < hq → (addConvexBody lDegen hq).isSome = true) ∧
    (run initModel (esDegen ++ [.arrowUp, .click none])).bodies.length
        = initModel.bodies.length + 1 ∧
    (run initModel (esDegen ++ [.arrowUp, .click none])).sceneMeshes.length
        = initModel.sceneMeshes.length + 1 ∧
    (run initModel (esDegen ++ [.arrowUp, .click none])).ux = .idle := by
  refine ⟨?_, by decide, ?_, by decide, by decide, by decide⟩
  · intro vs hlen hcross
    rw [isConvexCCW_eq_true_iff]
    refine ⟨hlen, ?_⟩
    intro i hi
    rw [convexTermOk_iff, hcross i hi]
    omega
  · intro hq hh
    have hc : isConvexCCW (ensureCCW lDegen) = true := by decide
    simp [addConvexBody, hc]

/-- Claim C10 witness: the degenerate polygon passes the convexity test and
builds at height 1. -/
theorem claimC10_witness :
    isConvexCCW lDegen = true ∧ (addConvexBody lDegen 1).isSome = true :=
  ⟨claimC10.1 lDegen (by decide) (by decide), claimC10.2.2.1 1 (by norm_num)⟩
